import Mathlib

/-!
Verification development for the THIZ.js convention-based routing engine as
described by the repository documentation (file-based routing, middleware
resolution, conflict handling, environment loading and the dev watcher).
The implementation package itself is not part of this repository, so every
operation is modelled from the specification and the documentation pages,
then the specified properties are proved about the model.
-/

deriving instance DecidableEq for Except

namespace Thiz

/-- Modelled from the spec: the five HTTP method tokens recognized by the
tree scanner (GET, POST, PUT, PATCH, DELETE). -/
inductive Method where
  | get
  | post
  | put
  | patch
  | delete
deriving DecidableEq

/-- Modelled from the spec: the list of recognized method tokens, in the
order the scanner checks them. -/
def methodList : List Method := [.get, .post, .put, .patch, .delete]

/-- Uppercase token naming a method, used for case-insensitive filename
matching. -/
def Method.token : Method → String
  | .get => "GET"
  | .post => "POST"
  | .put => "PUT"
  | .patch => "PATCH"
  | .delete => "DELETE"

/-- Split a character list into groups separated by the character c. -/
def splitOnChar (c : Char) : List Char → List (List Char)
  | [] => [[]]
  | x :: xs =>
    if x = c then [] :: splitOnChar c xs
    else
      match splitOnChar c xs with
      | [] => [[x]]
      | g :: gs => (x :: g) :: gs

/-- Split a string on a separator character. -/
def strSplit (c : Char) (s : String) : List String :=
  (splitOnChar c s.data).map (fun l => ⟨l⟩)

/-- Uppercase a string (ASCII), used for case-insensitive matching. -/
def upStr (s : String) : String := ⟨s.data.map Char.toUpper⟩

/-- Modelled from the spec: recognize a method token case-insensitively. -/
def Method.ofToken (s : String) : Option Method :=
  methodList.find? (fun m => decide (upStr s = m.token))

/-- Modelled from the spec: the two recognized source extensions. -/
def recognizedExt (e : String) : Bool := decide (e = "js") || decide (e = "ts")

/-- Modelled from the spec: parse a route handler filename of the form
METHOD.ext; any file not matching the convention is ignored. -/
def parseHandlerFile (f : String) : Option (Method × String) :=
  match strSplit '.' f with
  | [base, ext] =>
    if recognizedExt ext then
      (Method.ofToken base).map (fun m => (m, ext))
    else none
  | _ => none

/-- Lexicographic comparison of character lists, by code point. -/
def lexLe : List Char → List Char → Bool
  | [], _ => true
  | _ :: _, [] => false
  | a :: as, b :: bs =>
    if a = b then lexLe as bs else decide (a.toNat < b.toNat)

/-- Lexicographic order on strings, used to sort global middleware by
filename. -/
def strLe (a b : String) : Bool := lexLe a.data b.data

/-- Modelled from the spec: a fragment of the on-disk routes directory.
Each directory holds a list of file names and a list of named
subdirectories.  The implementation package reading the real filesystem is
not part of this repository. -/
inductive FsTree where
  | dir (files : List String) (subdirs : List (String × FsTree))

/-- Modelled from the spec: a node of the in-memory route tree built by the
scanner.  Handlers map a method to the source file that provides it;
children are keyed by the directory segment name. -/
inductive RouteTree where
  | node (handlers : List (Method × String)) (children : List (String × RouteTree))

/-- Handlers registered directly at a node. -/
def RouteTree.rootHandlers : RouteTree → List (Method × String)
  | .node hs _ => hs

/-- Children of a node. -/
def RouteTree.kids : RouteTree → List (String × RouteTree)
  | .node _ cs => cs

/-- Modelled from the spec: registration-time error kinds of the pipeline. -/
inductive RegError where
  | duplicateHandlerExtension
  | conflictError (file1 file2 : String)
  | middlewareNotFound (name : String) (available : List String)
deriving DecidableEq

/-- Files at a node that register a handler for the given method. -/
def handlerFilesFor (files : List String) (m : Method) : List String :=
  files.filter (fun f => decide ((parseHandlerFile f).map Prod.fst = some m))

/-- Modelled from the spec: per-node handler collection.  For each method
the matching files are collected; two or more matching files (both
recognized extensions present) abort the pass with
DuplicateHandlerExtension. -/
def scanHandlers (path : String) (files : List String) :
    List Method → Except RegError (List (Method × String))
  | [] => .ok []
  | m :: ms =>
    match handlerFilesFor files m, scanHandlers path files ms with
    | _, .error e => .error e
    | [], .ok rest => .ok rest
    | [f], .ok rest => .ok ((m, path ++ "/" ++ f) :: rest)
    | _ :: _ :: _, .ok _ => .error .duplicateHandlerExtension

mutual

/-- Modelled from the spec: recursive directory scan building the route
tree; the accumulated path names the source files. -/
def scanTree (path : String) : FsTree → Except RegError RouteTree
  | .dir files subs =>
    match scanHandlers path files methodList, scanKids path subs with
    | .error e, _ => .error e
    | .ok _, .error e => .error e
    | .ok hs, .ok cs => .ok (.node hs cs)

/-- Modelled from the spec: scan of the subdirectories of a node. -/
def scanKids (path : String) : List (String × FsTree) → Except RegError (List (String × RouteTree))
  | [] => .ok []
  | (n, t) :: rest =>
    match scanTree (path ++ "/" ++ n) t, scanKids path rest with
    | .error e, _ => .error e
    | .ok _, .error e => .error e
    | .ok c, .ok cs => .ok ((n, c) :: cs)

end

/-- A directory segment written inside square brackets introduces a dynamic
segment. -/
def isDynamicSeg (s : String) : Bool :=
  decide (s.data.head? = some '[') && decide (s.data.getLast? = some ']') &&
    decide (2 ≤ s.data.length)

/-- Parameter name of a dynamic segment: the directory name without the
surrounding brackets. -/
def paramOf (s : String) : String := ⟨(s.data.drop 1).dropLast⟩

/-- Modelled from the spec: per-segment transform used by the path
resolver.  A static segment maps to its literal name, a bracket-wrapped
segment maps to a named placeholder. -/
def segTransform (s : String) : String :=
  if isDynamicSeg s then ":" ++ paramOf s else s

/-- Insert into a list sorted by the given boolean order. -/
def insertLe {α : Type} (le : α → α → Bool) (x : α) : List α → List α
  | [] => [x]
  | y :: ys => if le x y then x :: y :: ys else y :: insertLe le x ys

/-- Insertion sort by the given boolean order. -/
def sortLe {α : Type} (le : α → α → Bool) : List α → List α
  | [] => []
  | x :: xs => insertLe le x (sortLe le xs)

/-- Sibling order on child entries: alphabetical by segment name. -/
def childLe (a b : String × RouteTree) : Bool := strLe a.1 b.1

/-- Modelled from the spec: traversal order of the children of a node.  Static
children come before dynamic children (static registrations must precede
sibling dynamic registrations), each group alphabetically by name. -/
def orderChildren (cs : List (String × RouteTree)) : List (String × RouteTree) :=
  sortLe childLe (cs.filter (fun c => !isDynamicSeg c.1)) ++
    sortLe childLe (cs.filter (fun c => isDynamicSeg c.1))

mutual

/-- Modelled from the spec: normalize a route tree into resolver traversal
order by ordering the children of every node (statics before dynamics,
alphabetically within each group). -/
def sortTree : RouteTree → RouteTree
  | .node hs cs => .node hs (orderChildren (sortKidsList cs))

/-- Recursively normalize each child subtree. -/
def sortKidsList : List (String × RouteTree) → List (String × RouteTree)
  | [] => []
  | (n, t) :: rest => (n, sortTree t) :: sortKidsList rest

end

/-- Modelled from the spec: a resolved route record.  The URL pattern is the
rendered path string, the middleware field holds the names declared by the
route module and the source file names the handler file. -/
structure RouteRecord where
  method : Method
  urlPattern : String
  middlewares : List String
  sourceFile : String
deriving DecidableEq

/-- Pattern text contributed by one resolved segment. -/
def segPiece (s : String) : String := "/" ++ segTransform s

/-- Modelled from the spec: the record built for one handler; an empty
accumulated pattern resolves to the root path. -/
def mkRecord (decls : String → List String) (acc : String) (h : Method × String) :
    RouteRecord :=
  ⟨h.1, if acc = "" then "/" else acc, decls h.2, h.2⟩

mutual

/-- Modelled from the spec: depth-first resolution of a (normalized) route
tree, parents before children, accumulating the rendered pattern. -/
def resolveNode (decls : String → List String) (acc : String) : RouteTree → List RouteRecord
  | .node hs cs => hs.map (mkRecord decls acc) ++ resolveKids decls acc cs

/-- Resolution of the children of a node, in the order given. -/
def resolveKids (decls : String → List String) (acc : String) :
    List (String × RouteTree) → List RouteRecord
  | [] => []
  | (n, t) :: rest =>
    resolveNode decls (acc ++ segPiece n) t ++ resolveKids decls acc rest

end

/-- Modelled from the spec: the flat ordered RouteRecord sequence produced
by the path resolver, starting from the configured URL prefix. -/
def resolveRecords (pfx : String) (decls : String → List String) (t : RouteTree) :
    List RouteRecord :=
  resolveNode decls pfx (sortTree t)

/-- Shape of one pattern segment: the name of a dynamic placeholder is
irrelevant to shape. -/
def shapeSeg (s : String) : String :=
  if s.data.head? = some ':' then ":param" else s

/-- Modelled from the spec: the shape of a URL pattern, obtained by erasing
the names of dynamic placeholders; only their positions and the surrounding
static segments remain. -/
def shapeOf (pat : String) : List String := (strSplit '/' pat).map shapeSeg

/-- Two records have the same method and the same pattern shape. -/
def sameShape (a b : RouteRecord) : Bool :=
  decide (a.method = b.method) && decide (shapeOf a.urlPattern = shapeOf b.urlPattern)

/-- Two records collide: same method, same shape, but distinguishable
patterns (dynamic parameter names differ). -/
def collides (a b : RouteRecord) : Bool :=
  sameShape a b && decide (a.urlPattern ≠ b.urlPattern)

/-- Modelled from the spec: a detected conflict, keeping the earlier record
and naming the later one that is dropped. -/
structure Conflict where
  kept : RouteRecord
  dropped : RouteRecord
deriving DecidableEq

/-- Modelled from the spec: all pairwise conflicts among the resolved
records, in traversal order. -/
def conflictsOf : List RouteRecord → List Conflict
  | [] => []
  | r :: rs => (rs.filter (collides r)).map (fun d => ⟨r, d⟩) ++ conflictsOf rs

/-- Modelled from the spec: warnings emitted in non-strict mode, each naming
the two source files of a conflicting pair. -/
def nonStrictWarnings (l : List RouteRecord) : List (String × String) :=
  (conflictsOf l).map (fun c => (c.kept.sourceFile, c.dropped.sourceFile))

/-- Modelled from the spec: non-strict commitment pass.  Records are
processed in traversal order; a record whose method and shape were already
seen is dropped, otherwise it is kept. -/
def commitGo (seen : List RouteRecord) : List RouteRecord → List RouteRecord
  | [] => []
  | r :: rs =>
    if seen.any (fun s => sameShape s r) then commitGo seen rs
    else r :: commitGo (r :: seen) rs

/-- Modelled from the spec: the committed table under the default non-strict
policy, keeping the earliest record of each method-and-shape group. -/
def commitNonStrict (l : List RouteRecord) : List RouteRecord := commitGo [] l

/-- Modelled from the spec: kind of a discovered middleware. -/
inductive MwKind where
  | global
  | named
deriving DecidableEq

/-- Modelled from the spec: a discovered middleware.  The sort key is the
filename and is used only for global ordering. -/
structure MiddlewareDescriptor where
  name : String
  kind : MwKind
  sourcePath : String
  sortKey : String
deriving DecidableEq

/-- Modelled from the spec: parse one file of the flat middleware directory.
A filename name._global.ext registers global middleware, any other name.ext
registers named middleware; other files are ignored. -/
def parseMwFile (f : String) : Option MiddlewareDescriptor :=
  match strSplit '.' f with
  | [n, "_global", ext] =>
    if recognizedExt ext then some ⟨n, .global, "src/middlewares/" ++ f, f⟩ else none
  | [n, ext] =>
    if recognizedExt ext then some ⟨n, .named, "src/middlewares/" ++ f, f⟩ else none
  | _ => none

/-- Modelled from the spec: scan of the flat middleware directory. -/
def discoverMw (files : List String) : List MiddlewareDescriptor :=
  files.filterMap parseMwFile

/-- Modelled from the spec: all discovered global middlewares sorted
lexicographically by filename, independent of discovery order. -/
def globalsOf (ds : List MiddlewareDescriptor) : List MiddlewareDescriptor :=
  sortLe (fun a b => strLe a.sortKey b.sortKey)
    (ds.filter (fun d => decide (d.kind = MwKind.global)))

/-- Names of all discovered middlewares, enumerated in error messages. -/
def allMwNames (ds : List MiddlewareDescriptor) : List String := ds.map (·.name)

/-- Modelled from the spec: the reserved skip sentinel disabling global
middleware for one route. -/
def skipSentinel : String := "!_global"

/-- Look up a declared name among the discovered named middlewares. -/
def lookupNamed (ds : List MiddlewareDescriptor) (n : String) : Option MiddlewareDescriptor :=
  (ds.filter (fun d => decide (d.kind = MwKind.named))).find? (fun d => decide (d.name = n))

/-- Modelled from the spec: resolve the declared names of a route against
the discovered named middlewares; an unknown name fails with
MiddlewareNotFoundError listing all available names. -/
def resolveNames (ds : List MiddlewareDescriptor) :
    List String → Except RegError (List MiddlewareDescriptor)
  | [] => .ok []
  | n :: ns =>
    match lookupNamed ds n, resolveNames ds ns with
    | none, _ => .error (.middlewareNotFound n (allMwNames ds))
    | some _, .error e => .error e
    | some d, .ok rest => .ok (d :: rest)

/-- An element of a resolved chain: a middleware, or the handler itself. -/
inductive ChainItem where
  | mw (d : MiddlewareDescriptor)
  | handler
deriving DecidableEq

/-- Modelled from the spec: chain construction for one route.  If the
declared list contains the reserved skip token it is stripped and all
global middlewares are omitted; otherwise the sorted globals are prepended.
The declared names follow in declared order and the handler is last. -/
def resolveChain (ds : List MiddlewareDescriptor) (declared : List String) :
    Except RegError (List ChainItem) :=
  if decide (skipSentinel ∈ declared) then
    match resolveNames ds (declared.filter (fun n => !decide (n = skipSentinel))) with
    | .error e => .error e
    | .ok l => .ok (l.map .mw ++ [.handler])
  else
    match resolveNames ds declared with
    | .error e => .error e
    | .ok l => .ok ((globalsOf ds).map .mw ++ l.map .mw ++ [.handler])

/-- Modelled from the spec: a route bound onto the hosting server, with its
fully resolved chain. -/
structure BoundRoute where
  method : Method
  urlPattern : String
  chain : List ChainItem
  sourceFile : String
deriving DecidableEq

/-- Modelled from the spec: bind the chain of each committed record; the first
failure aborts. -/
def bindAll (ds : List MiddlewareDescriptor) :
    List RouteRecord → Except RegError (List BoundRoute)
  | [] => .ok []
  | r :: rs =>
    match resolveChain ds r.middlewares, bindAll ds rs with
    | .error e, _ => .error e
    | .ok _, .error e => .error e
    | .ok c, .ok rest => .ok (⟨r.method, r.urlPattern, c, r.sourceFile⟩ :: rest)

/-- Modelled from the spec: the full registration pipeline.  Scan the
routes directory, resolve records in traversal order, apply the conflict
policy (strict aborts on the first conflict naming both files, non-strict
keeps the earliest record of each group), resolve every middleware chain
and produce the ordered sequence bound onto the hosting server.  Any error
aborts the whole registration. -/
def registerRoutes (pfx : String) (strict : Bool) (fs : FsTree)
    (mwFiles : List String) (decls : String → List String) :
    Except RegError (List BoundRoute) :=
  match scanTree "src/routes" fs with
  | .error e => .error e
  | .ok tree =>
    let records := resolveRecords pfx decls tree
    let ds := discoverMw mwFiles
    if strict then
      match conflictsOf records with
      | c :: _ => .error (.conflictError c.kept.sourceFile c.dropped.sourceFile)
      | [] => bindAll ds records
    else
      bindAll ds (commitNonStrict records)

/-- Modelled from the spec: the routes the hosting server ends up with —
the committed sequence on success, none at all on a registration error
(commitment is all-or-nothing). -/
def serverRoutes (r : Except RegError (List BoundRoute)) : List BoundRoute :=
  match r with
  | .ok l => l
  | .error _ => []

/-- Split a request path or pattern into its non-empty segments. -/
def splitPath (p : String) : List String :=
  (strSplit '/' p).filter (fun s => !decide (s = ""))

/-- One pattern segment matches one request segment: a placeholder matches
anything, a literal only itself. -/
def segMatch (p r : String) : Bool :=
  decide (p.data.head? = some ':') || decide (p = r)

/-- A pattern matches a request path when the segments align pairwise. -/
def patMatch (pat req : String) : Bool :=
  decide ((splitPath pat).length = (splitPath req).length) &&
    (((splitPath pat).zip (splitPath req)).all (fun pr => segMatch pr.1 pr.2))

/-- Modelled from the spec: the hosting router dispatches a request to the
first registered route whose method and pattern match. -/
def routeRequest (routes : List BoundRoute) (m : Method) (path : String) :
    Option BoundRoute :=
  routes.find? (fun r => decide (r.method = m) && patMatch r.urlPattern path)

/-- Modelled from the spec: pending-timer evolution of the debouncer.  The
first argument of the recursion is the current deadline; an event arriving
before the deadline refreshes the single timer, a later event means the
timer already fired one restart.  The final expiry always fires. -/
def fireTimes (w : Nat) : Nat → List Nat → List Nat
  | deadline, [] => [deadline]
  | deadline, t :: ts =>
    if t < deadline then fireTimes w (t + w) ts
    else deadline :: fireTimes w (t + w) ts

/-- Modelled from the spec: the times at which the debouncer triggers a
restart, given the (ordered) times of the file-change events and the
debounce window. -/
def restartTimes (w : Nat) : List Nat → List Nat
  | [] => []
  | t :: ts => fireTimes w (t + w) ts

/-- Modelled from the spec: states of the dev watcher. -/
inductive WState where
  | idle
  | watching
  | debouncing
  | restarting
  | failed
deriving DecidableEq

/-- Events driving the dev watcher loop. -/
inductive WEvent where
  | change
  | timerExpiry
  | spawnOk
  | spawnFail
  | crash
  | stop
deriving DecidableEq

/-- Side effects the watcher performs on a transition. -/
inductive WAction where
  | startTimer
  | kill
  | spawn
  | report
deriving DecidableEq

/-- Modelled from the spec and hot-reload documentation: the watcher step
function.  A change event starts or refreshes the debounce timer; expiry
triggers a restart (terminate then spawn); a failed spawn reports and
enters the Failed state, which waits for the next change; an unexpected
crash of the hosted process is reported and the watcher restarts it
automatically. -/
def wStep : WState → WEvent → WState × List WAction
  | _, .stop => (.idle, [.kill])
  | .watching, .change => (.debouncing, [.startTimer])
  | .debouncing, .change => (.debouncing, [.startTimer])
  | .failed, .change => (.debouncing, [.startTimer])
  | .debouncing, .timerExpiry => (.restarting, [.kill, .spawn])
  | .restarting, .spawnOk => (.watching, [])
  | .restarting, .spawnFail => (.failed, [.report])
  | .watching, .crash => (.restarting, [.report, .spawn])
  | s, _ => (s, [])

/-- Modelled from the spec: insert a variable into the process environment
only when it is not already defined (earlier-loaded files win). -/
def setIfAbsent (env : List (String × String)) (kv : String × String) :
    List (String × String) :=
  if env.any (fun p => decide (p.1 = kv.1)) then env else env ++ [kv]

/-- Modelled from the spec: load one env file into the accumulated process
environment, never overriding variables loaded earlier. -/
def loadFile (env : List (String × String)) : List (String × String) → List (String × String)
  | [] => env
  | kv :: rest => loadFile (setIfAbsent env kv) rest

/-- Modelled from the spec: the hosted process environment produced by
loading the three env files in priority order, highest first:
.env.local, then .env.development, then .env. -/
def loadEnv (envLocal envDev envBase : List (String × String)) :
    List (String × String) :=
  loadFile (loadFile (loadFile [] envLocal) envDev) envBase

/-- Value of a variable in an environment (first binding wins). -/
def lookupVar (env : List (String × String)) (k : String) : Option String :=
  (env.find? (fun p => decide (p.1 = k))).map Prod.snd

/-- Reference rendering of a segment path: each segment contributes a slash
followed by its transform. -/
def renderSegs : List String → String
  | [] => ""
  | s :: rest => segPiece s ++ renderSegs rest

/-- Reference definition of the claimed URL pattern: the configured prefix
concatenated with the per-segment transforms of the root-to-node path; an
empty segment list under the default empty prefix resolves to the root
path. -/
def refPattern (pfx : String) (segs : List String) : String :=
  if pfx = "" ∧ segs = [] then "/" else pfx ++ renderSegs segs

mutual

/-- Reference enumeration of the handlers of a tree: for each handler, in
traversal order, the list of segment names from the root to its node. -/
def handlerPaths : RouteTree → List (List String)
  | .node hs cs => hs.map (fun _ => []) ++ handlerPathsKids cs

/-- Reference enumeration over the children of a node. -/
def handlerPathsKids : List (String × RouteTree) → List (List String)
  | [] => []
  | (n, t) :: rest => (handlerPaths t).map (fun p => n :: p) ++ handlerPathsKids rest

end

/-- Reference chain of a route per the claimed rule: with the sentinel, the
declared list with the sentinel removed, in declared order, then the
handler, and no globals; without it, the sorted globals, then the declared
names in declared order, then the handler. -/
def refChain (ds : List MiddlewareDescriptor) (declared : List String) : List ChainItem :=
  if decide (skipSentinel ∈ declared) then
    ((declared.filter (fun n => !decide (n = skipSentinel))).filterMap
        (lookupNamed ds)).map .mw ++ [.handler]
  else
    (globalsOf ds).map .mw ++ (declared.filterMap (lookupNamed ds)).map .mw ++ [.handler]

/-- Reference per-variable merge of the three env files: the value comes
from the highest-priority file defining the variable. -/
def priorityLookup (envLocal envDev envBase : List (String × String)) (k : String) :
    Option String :=
  match lookupVar envLocal k with
  | some v => some v
  | none =>
    match lookupVar envDev k with
    | some v => some v
    | none => lookupVar envBase k

/-- The files of a node contain handler files with both recognized extensions
for the same method. -/
def bothExtAt (files : List String) : Bool :=
  methodList.any (fun m =>
    files.any (fun f => decide (parseHandlerFile f = some (m, "js"))) &&
      files.any (fun f => decide (parseHandlerFile f = some (m, "ts"))))

mutual

/-- Reference predicate: some node of the directory tree provides handler
files with both recognized extensions for one method. -/
def hasBothExt : FsTree → Bool
  | .dir files subs => bothExtAt files || hasBothExtKids subs

/-- Reference predicate over the subdirectories. -/
def hasBothExtKids : List (String × FsTree) → Bool
  | [] => false
  | (_, t) :: rest => hasBothExt t || hasBothExtKids rest

end

/-- Concrete middleware directory of the claimed example: two globals
discovered out of lexicographic order and two named middlewares. -/
def mwFilesEx : List String := ["z._global.js", "m1.js", "a._global.js", "m2.js"]

/-- Discovered descriptors of the example middleware directory. -/
def dsEx : List MiddlewareDescriptor := discoverMw mwFilesEx

/-- Descriptor of the example global middleware a. -/
def mwA : MiddlewareDescriptor := ⟨"a", .global, "src/middlewares/a._global.js", "a._global.js"⟩

/-- Descriptor of the example global middleware z. -/
def mwZ : MiddlewareDescriptor := ⟨"z", .global, "src/middlewares/z._global.js", "z._global.js"⟩

/-- Descriptor of the example named middleware m1. -/
def mwM1 : MiddlewareDescriptor := ⟨"m1", .named, "src/middlewares/m1.js", "m1.js"⟩

/-- Descriptor of the example named middleware m2. -/
def mwM2 : MiddlewareDescriptor := ⟨"m2", .named, "src/middlewares/m2.js", "m2.js"⟩

/-- Concrete routes directory of the static-versus-dynamic example:
users/GET.js, users/[id]/GET.js and users/profile/GET.js. -/
def fsEx : FsTree :=
  .dir [] [("users", .dir ["GET.js"]
    [("[id]", .dir ["GET.js"] []), ("profile", .dir ["GET.js"] [])])]

/-- Route-tree node of the dynamic [id] child in the static-versus-dynamic
example. -/
def idNodeEx : RouteTree := .node [(.get, "src/routes/users/[id]/GET.js")] []

/-- Route-tree node of the static profile child in the static-versus-dynamic
example. -/
def profileNodeEx : RouteTree := .node [(.get, "src/routes/users/profile/GET.js")] []

/-- Concrete conflicting records of the documented example: two dynamic
siblings differing only in parameter name. -/
def recId : RouteRecord :=
  ⟨.get, "/products/:id", [], "src/routes/products/[id]/GET.js"⟩

/-- The later conflicting record of the documented example. -/
def recSlug : RouteRecord :=
  ⟨.get, "/products/:slug", [], "src/routes/products/[slug]/GET.js"⟩

/-- Concrete routes directory containing the two conflicting dynamic
siblings. -/
def fsConflict : FsTree :=
  .dir [] [("products", .dir []
    [("[id]", .dir ["GET.js"] []), ("[slug]", .dir ["GET.js"] [])])]

/-- The scanned route tree of the conflicting example directory. -/
def treeConflict : RouteTree :=
  .node [] [("products", .node []
    [("[id]", .node [(.get, "src/routes/products/[id]/GET.js")] []),
     ("[slug]", .node [(.get, "src/routes/products/[slug]/GET.js")] [])])]

/-- Concrete .env file of the documented priority example. -/
def envBaseEx : List (String × String) :=
  [("PORT", "5000"), ("NODE_ENV", "development"), ("API_KEY", "default_key")]

/-- Concrete .env.development file of the documented priority example. -/
def envDevEx : List (String × String) := [("PORT", "5001"), ("DEBUG", "true")]

/-- Concrete .env.local file of the documented priority example. -/
def envLocalEx : List (String × String) := [("PORT", "3000"), ("API_KEY", "my_secret_key")]

/-- The loaded process environment of the documented priority example. -/
def envEx : List (String × String) := loadEnv envLocalEx envDevEx envBaseEx

end Thiz

namespace Thiz

theorem lookupVar_nil (k : String) : lookupVar [] k = none := rfl

theorem lookupVar_cons (kv : String × String) (rest : List (String × String)) (k : String) :
    lookupVar (kv :: rest) k = if kv.1 = k then some kv.2 else lookupVar rest k := by
  by_cases h : kv.1 = k <;> simp [lookupVar, List.find?_cons, h]

theorem lookupVar_append (e1 e2 : List (String × String)) (k : String) :
    lookupVar (e1 ++ e2) k = (lookupVar e1 k).or (lookupVar e2 k) := by
  unfold lookupVar
  rw [List.find?_append]
  cases List.find? (fun p => decide (p.1 = k)) e1 <;> simp [Option.or]

theorem lookupVar_isSome_of_any (env : List (String × String)) (c : String)
    (h : env.any (fun p => decide (p.1 = c)) = true) : ∃ v, lookupVar env c = some v := by
  induction env with
  | nil => simp at h
  | cons q rest ih =>
    rw [lookupVar_cons]
    by_cases hq : q.1 = c
    · exact ⟨q.2, by simp [hq]⟩
    · rw [if_neg hq]
      apply ih
      simp only [List.any_cons, Bool.or_eq_true, decide_eq_true_eq] at h
      rcases h with h | h
      · exact absurd h hq
      · exact h

theorem lookupVar_loadFile (f : List (String × String)) :
    ∀ (env : List (String × String)) (k : String),
      lookupVar (loadFile env f) k = (lookupVar env k).or (lookupVar f k) := by
  induction f with
  | nil => intro env k; simp [loadFile, lookupVar_nil]
  | cons kv rest ih =>
    intro env k
    show lookupVar (loadFile (setIfAbsent env kv) rest) k = _
    rw [ih]
    unfold setIfAbsent
    by_cases hmem : env.any (fun p => decide (p.1 = kv.1)) = true
    · rw [if_pos hmem, lookupVar_cons]
      by_cases hk : kv.1 = k
      · obtain ⟨v, hv⟩ := lookupVar_isSome_of_any env k (hk ▸ hmem)
        simp [hv, hk]
      · simp [hk]
    · rw [if_neg hmem, lookupVar_append, Option.or_assoc, lookupVar_cons]
      congr 1
      rw [lookupVar_cons, lookupVar_nil]
      by_cases hk : kv.1 = k <;> simp [hk]

theorem priorityLookup_or (lo de ba : List (String × String)) (k : String) :
    priorityLookup lo de ba k = (lookupVar lo k).or ((lookupVar de k).or (lookupVar ba k)) := by
  unfold priorityLookup
  cases lookupVar lo k <;> cases lookupVar de k <;> simp [Option.or]

/-- Claim C10: a variable defined in several of the files .env, .env.development
and .env.local receives the value of the highest-priority file, .env.local
over .env.development over .env, and a variable defined only in a
lower-priority file keeps the value of that file: loading merges per variable,
exactly as the reference priority lookup does.  The documented four-variable
example evaluates accordingly. -/
theorem c10_env_file_priority :
    (∀ (lo de ba : List (String × String)) (k : String),
      lookupVar (loadEnv lo de ba) k = priorityLookup lo de ba k) ∧
    lookupVar envEx "PORT" = some "3000" ∧
    lookupVar envEx "NODE_ENV" = some "development" ∧
    lookupVar envEx "API_KEY" = some "my_secret_key" ∧
    lookupVar envEx "DEBUG" = some "true" := by
  refine ⟨?_, by decide, by decide, by decide, by decide⟩
  intro lo de ba k
  unfold loadEnv
  rw [lookupVar_loadFile, lookupVar_loadFile, lookupVar_loadFile, priorityLookup_or]
  simp [lookupVar_nil, Option.or_assoc]

/-- Claim C6: when every one of N (N at least 1) file-change events arrives
before the pending debounce deadline, each event merely refreshes the single
timer and exactly one restart is issued, at one debounce window after the
last event. -/
theorem c6_debounce_single_restart (w : Nat) (t0 : Nat) (ts : List Nat)
    (h : List.Chain (fun a b => b < a + w) t0 ts) :
    restartTimes w (t0 :: ts) = [ts.getLastD t0 + w] := by
  induction ts generalizing t0 with
  | nil => simp [restartTimes, fireTimes]
  | cons t1 rest ih =>
    rw [List.chain_cons] at h
    show fireTimes w (t0 + w) (t1 :: rest) = _
    rw [List.getLastD_cons]
    unfold fireTimes
    rw [if_pos h.1]
    exact ih t1 h.2

/-- Witness for claim C6: three rapid events at 0, 100 and 140 milliseconds
under the default 150 millisecond window produce exactly one restart, at
290 milliseconds. -/
theorem c6_debounce_witness : restartTimes 150 [0, 100, 140] = [290] := by
  have h := c6_debounce_single_restart 150 0 [100, 140]
    (List.Chain.cons (by decide) (List.Chain.cons (by decide) List.Chain.nil))
  simpa using h

/-- Counterexample to claim C7: the documentation states that the watcher
detects an unexpected crash of the hosted process and restarts it
automatically, so on a crash event in the watching state the watcher does
not enter the Failed state and it issues a spawn without waiting for any
file-change event. -/
theorem c7_crash_counterexample :
    (wStep WState.watching WEvent.crash).1 ≠ WState.failed ∧
    WAction.spawn ∈ (wStep WState.watching WEvent.crash).2 := by decide

/-- Claim C7 (amended): on an unexpected crash of the hosted process the
watcher reports it and immediately restarts the process automatically
(entering Restarting and issuing a spawn, without waiting for a file-change
event); the Failed state is entered only when a spawn fails, and Failed
then waits, reacting to nothing but the next change event (or stop). -/
theorem c7_crash_autorestart :
    wStep WState.watching WEvent.crash = (WState.restarting, [WAction.report, WAction.spawn]) ∧
    wStep WState.restarting WEvent.spawnFail = (WState.failed, [WAction.report]) ∧
    (∀ e : WEvent, e ≠ WEvent.change → e ≠ WEvent.stop →
      wStep WState.failed e = (WState.failed, [])) ∧
    wStep WState.failed WEvent.change = (WState.debouncing, [WAction.startTimer]) := by
  refine ⟨rfl, rfl, ?_, rfl⟩
  intro e h1 h2
  cases e <;> first | rfl | exact absurd rfl h1 | exact absurd rfl h2

/-- Witness for the amended claim C7: a crash event in the Failed state
leaves the watcher waiting with no action. -/
theorem c7_failed_waits_witness : wStep WState.failed WEvent.crash = (WState.failed, []) :=
  c7_crash_autorestart.2.2.1 WEvent.crash (by decide) (by decide)

theorem resolveNames_ok_eq (ds : List MiddlewareDescriptor) :
    ∀ (ns : List String) (l : List MiddlewareDescriptor),
      resolveNames ds ns = .ok l → l = ns.filterMap (lookupNamed ds) := by
  intro ns
  induction ns with
  | nil =>
    intro l h
    simp only [resolveNames] at h
    injection h with h
    simp [h.symm]
  | cons n rest ih =>
    intro l h
    simp only [resolveNames] at h
    cases hn : lookupNamed ds n with
    | none => rw [hn] at h; exact absurd h (by simp)
    | some d =>
      rw [hn] at h
      cases hr : resolveNames ds rest with
      | error e => rw [hr] at h; exact absurd h (by simp)
      | ok tail =>
        rw [hr] at h
        injection h with h
        rw [List.filterMap_cons, hn, ← ih tail hr, ← h]

/-- Claim C1: the resolved middleware chain of every route equals the
reference chain: with the reserved skip sentinel in the declared list, the
declared names minus the sentinel in declared order followed by the handler
and no globals; otherwise the globals sorted lexicographically by filename,
then the declared names in declared order, then the handler.  With globals
a._global.js and z._global.js (discovered out of order) and declared list
m1, m2 the chain is a, z, m1, m2, handler; with the sentinel and m1 it is
m1, handler. -/
theorem c1_middleware_chain :
    (∀ (ds : List MiddlewareDescriptor) (declared : List String) (c : List ChainItem),
      resolveChain ds declared = .ok c → c = refChain ds declared) ∧
    resolveChain dsEx ["m1", "m2"] =
      .ok [.mw mwA, .mw mwZ, .mw mwM1, .mw mwM2, .handler] ∧
    resolveChain dsEx [skipSentinel, "m1"] = .ok [.mw mwM1, .handler] := by
  refine ⟨?_, by decide, by decide⟩
  intro ds declared c h
  unfold resolveChain at h
  unfold refChain
  by_cases hs : skipSentinel ∈ declared
  · rw [if_pos (by simpa using hs)] at h
    rw [if_pos (by simpa using hs)]
    cases hr : resolveNames ds (declared.filter (fun n => !decide (n = skipSentinel))) with
    | error e => rw [hr] at h; exact absurd h (by simp)
    | ok l =>
      rw [hr] at h
      injection h with h
      rw [← h, resolveNames_ok_eq ds _ l hr]
  · rw [if_neg (by simpa using hs)] at h
    rw [if_neg (by simpa using hs)]
    cases hr : resolveNames ds declared with
    | error e => rw [hr] at h; exact absurd h (by simp)
    | ok l =>
      rw [hr] at h
      injection h with h
      rw [← h, resolveNames_ok_eq ds _ l hr]

/-- Witness for claim C1: the successfully resolved example chain equals
the reference chain on the example middleware directory. -/
theorem c1_chain_witness :
    [ChainItem.mw mwA, ChainItem.mw mwZ, ChainItem.mw mwM1, ChainItem.mw mwM2,
      ChainItem.handler] = refChain dsEx ["m1", "m2"] :=
  c1_middleware_chain.1 dsEx ["m1", "m2"] _ (by decide)

theorem renderSegs_ne_empty (s : String) (rest : List String) :
    renderSegs (s :: rest) ≠ "" := by
  intro h
  have hd := congrArg String.data h
  rw [show renderSegs (s :: rest) = ("/" ++ segTransform s) ++ renderSegs rest from rfl] at hd
  rw [String.data_append, String.data_append] at hd
  rw [show ("/" : String).data = ['/'] from rfl] at hd
  simp at hd

theorem renderSegs_snoc (a : List String) (n : String) :
    renderSegs (a ++ [n]) = renderSegs a ++ segPiece n := by
  induction a with
  | nil =>
    show segPiece n ++ renderSegs [] = renderSegs [] ++ segPiece n
    rw [show renderSegs [] = "" from rfl, String.append_empty, String.empty_append]
  | cons x xs ih =>
    show segPiece x ++ renderSegs (xs ++ [n]) = (segPiece x ++ renderSegs xs) ++ segPiece n
    rw [ih, String.append_assoc]

theorem refPattern_eq_ite (pfx : String) (segs : List String) :
    refPattern pfx segs = if pfx ++ renderSegs segs = "" then "/" else pfx ++ renderSegs segs := by
  unfold refPattern
  by_cases h : pfx = "" ∧ segs = []
  · rw [if_pos h]
    obtain ⟨h1, h2⟩ := h
    subst h1
    subst h2
    rw [if_pos (show ("" : String) ++ renderSegs [] = "" by decide)]
  · have hne : pfx ++ renderSegs segs ≠ "" := by
      intro hc
      cases hsegs : segs with
      | nil =>
        apply h
        refine ⟨?_, hsegs⟩
        rw [hsegs] at hc
        rw [show renderSegs [] = "" from rfl, String.append_empty] at hc
        exact hc
      | cons s rest =>
        rw [hsegs] at hc
        have hd := congrArg String.data hc
        rw [String.data_append] at hd
        have h2 := (List.append_eq_nil.1 (by simpa using hd)).2
        exact renderSegs_ne_empty s rest (by rw [String.ext_iff]; simpa using h2)
    rw [if_neg h, if_neg hne]

mutual

theorem patternsNode (decls : String → List String) (pfx : String) :
    ∀ (t : RouteTree) (segs : List String),
      (resolveNode decls (pfx ++ renderSegs segs) t).map RouteRecord.urlPattern =
        (handlerPaths t).map (fun p => refPattern pfx (segs ++ p))
  | .node hs cs, segs => by
    simp only [resolveNode, handlerPaths]
    rw [List.map_append, List.map_append, List.map_map, List.map_map]
    congr 1
    · apply List.map_congr_left
      intro a _
      simp only [Function.comp]
      show (if pfx ++ renderSegs segs = "" then "/" else pfx ++ renderSegs segs) =
        refPattern pfx (segs ++ [])
      rw [List.append_nil, refPattern_eq_ite]
    · exact patternsKids decls pfx cs segs

theorem patternsKids (decls : String → List String) (pfx : String) :
    ∀ (cs : List (String × RouteTree)) (segs : List String),
      (resolveKids decls (pfx ++ renderSegs segs) cs).map RouteRecord.urlPattern =
        (handlerPathsKids cs).map (fun p => refPattern pfx (segs ++ p))
  | [], _ => by
    simp only [resolveKids, handlerPathsKids, List.map_nil]
  | (n, t) :: rest, segs => by
    simp only [resolveKids, handlerPathsKids]
    rw [List.map_append, List.map_append, List.map_map]
    congr 1
    · have hacc : (pfx ++ renderSegs segs) ++ segPiece n = pfx ++ renderSegs (segs ++ [n]) := by
        rw [renderSegs_snoc, ← String.append_assoc]
      rw [hacc, patternsNode decls pfx t (segs ++ [n])]
      apply List.map_congr_left
      intro p _
      simp only [Function.comp]
      show refPattern pfx ((segs ++ [n]) ++ p) = refPattern pfx (segs ++ (n :: p))
      rw [List.append_assoc, List.singleton_append]
    · exact patternsKids decls pfx rest segs

end

/-- Claim C4: for every tree and every handler in it, the produced
RouteRecord URL pattern equals the configured prefix concatenated with
the per-segment transforms of the root-to-node path in traversal order
(static segments literally, bracketed segments as named placeholders), and
an empty segment list resolves to the root path. -/
theorem c4_url_pattern (pfx : String) (decls : String → List String) (t : RouteTree) :
    (resolveRecords pfx decls t).map RouteRecord.urlPattern =
      (handlerPaths (sortTree t)).map (refPattern pfx) := by
  have h := patternsNode decls pfx (sortTree t) []
  rw [show pfx ++ renderSegs [] = pfx by
    rw [show renderSegs [] = "" from rfl, String.append_empty]] at h
  unfold resolveRecords
  rw [h]
  apply List.map_congr_left
  intro p _
  rw [List.nil_append]

theorem two_le_length_of_mem_ne {α : Type} {l : List α} {a b : α}
    (ha : a ∈ l) (hb : b ∈ l) (hne : a ≠ b) : 2 ≤ l.length := by
  rcases List.append_of_mem ha with ⟨s, t, rfl⟩
  rcases List.mem_append.1 hb with hb | hb
  · rcases List.append_of_mem hb with ⟨u, v, rfl⟩
    simp [List.length_append]
    omega
  · rcases List.mem_cons.1 hb with rfl | hb
    · exact absurd rfl hne
    · rcases List.append_of_mem hb with ⟨u, v, rfl⟩
      simp [List.length_append]
      omega

theorem bothExtAt_two (files : List String) (h : bothExtAt files = true) :
    ∃ m ∈ methodList, 2 ≤ (handlerFilesFor files m).length := by
  rcases List.any_eq_true.1 h with ⟨m, hm, hcond⟩
  rw [Bool.and_eq_true] at hcond
  rcases List.any_eq_true.1 hcond.1 with ⟨f1, hf1, hp1⟩
  rcases List.any_eq_true.1 hcond.2 with ⟨f2, hf2, hp2⟩
  have hp1e := of_decide_eq_true hp1
  have hp2e := of_decide_eq_true hp2
  have hne : f1 ≠ f2 := by
    intro he
    rw [he, hp2e] at hp1e
    simp at hp1e
  refine ⟨m, hm, ?_⟩
  have hm1 : f1 ∈ handlerFilesFor files m := List.mem_filter.2 ⟨hf1, by simp [hp1e]⟩
  have hm2 : f2 ∈ handlerFilesFor files m := List.mem_filter.2 ⟨hf2, by simp [hp2e]⟩
  exact two_le_length_of_mem_ne hm1 hm2 hne

theorem scanHandlers_ok_or_dup (path : String) (files : List String) :
    ∀ ms : List Method,
      scanHandlers path files ms = .error .duplicateHandlerExtension ∨
        ∃ l, scanHandlers path files ms = .ok l := by
  intro ms
  induction ms with
  | nil => exact Or.inr ⟨[], rfl⟩
  | cons m rest ih =>
    unfold scanHandlers
    rcases ih with h | ⟨l, h⟩
    · rw [h]
      left
      cases hf : handlerFilesFor files m with
      | nil => rfl
      | cons f t =>
        cases t with
        | nil => rfl
        | cons g t2 => rfl
    · rw [h]
      cases hf : handlerFilesFor files m with
      | nil => exact Or.inr ⟨l, rfl⟩
      | cons f t =>
        cases t with
        | nil => exact Or.inr ⟨_, rfl⟩
        | cons g t2 => exact Or.inl rfl

theorem scanHandlers_dup_of_two (path : String) (files : List String) :
    ∀ (ms : List Method) (m : Method), m ∈ ms → 2 ≤ (handlerFilesFor files m).length →
      scanHandlers path files ms = .error .duplicateHandlerExtension := by
  intro ms
  induction ms with
  | nil => intro m hm; exact absurd hm (List.not_mem_nil m)
  | cons m0 rest ih =>
    intro m hm hlen
    unfold scanHandlers
    rcases scanHandlers_ok_or_dup path files rest with h | ⟨l, h⟩
    · rw [h]
      cases hf : handlerFilesFor files m0 with
      | nil => rfl
      | cons f t =>
        cases t with
        | nil => rfl
        | cons g t2 => rfl
    · rw [h]
      rcases List.mem_cons.1 hm with rfl | hmr
      · cases hf : handlerFilesFor files m with
        | nil => rw [hf] at hlen; simp at hlen
        | cons f t =>
          cases t with
          | nil => rw [hf] at hlen; simp at hlen
          | cons g t2 => rfl
      · have hcontra := ih m hmr hlen
        rw [h] at hcontra
        exact absurd hcontra (by simp)

mutual

theorem scanTree_ok_or_dup :
    ∀ (t : FsTree) (path : String),
      scanTree path t = .error .duplicateHandlerExtension ∨ ∃ r, scanTree path t = .ok r
  | .dir files subs, path => by
    rcases scanHandlers_ok_or_dup path files methodList with hh | ⟨hs, hh⟩ <;>
      rcases scanKids_ok_or_dup subs path with hk | ⟨cs, hk⟩ <;>
      simp only [scanTree] <;> rw [hh, hk]
    · exact Or.inl rfl
    · exact Or.inl rfl
    · exact Or.inl rfl
    · exact Or.inr ⟨_, rfl⟩

theorem scanKids_ok_or_dup :
    ∀ (subs : List (String × FsTree)) (path : String),
      scanKids path subs = .error .duplicateHandlerExtension ∨ ∃ r, scanKids path subs = .ok r
  | [], path => Or.inr ⟨[], rfl⟩
  | (n, t) :: rest, path => by
    rcases scanTree_ok_or_dup t (path ++ "/" ++ n) with hc | ⟨c, hc⟩ <;>
      rcases scanKids_ok_or_dup rest path with hk | ⟨cs, hk⟩ <;>
      simp only [scanKids] <;> rw [hc, hk]
    · exact Or.inl rfl
    · exact Or.inl rfl
    · exact Or.inl rfl
    · exact Or.inr ⟨_, rfl⟩

end

mutual

theorem scanTree_dup :
    ∀ (t : FsTree) (path : String), hasBothExt t = true →
      scanTree path t = .error .duplicateHandlerExtension
  | .dir files subs, path => by
    intro h
    simp only [hasBothExt, Bool.or_eq_true] at h
    rcases h with hb | hkb
    · obtain ⟨m, hm, hlen⟩ := bothExtAt_two files hb
      have hh := scanHandlers_dup_of_two path files methodList m hm hlen
      rcases scanKids_ok_or_dup subs path with hk | ⟨cs, hk⟩ <;>
        simp only [scanTree] <;> rw [hh, hk]
    · have hk := scanKids_dup subs path hkb
      rcases scanHandlers_ok_or_dup path files methodList with hh | ⟨hs, hh⟩ <;>
        simp only [scanTree] <;> rw [hh, hk]

theorem scanKids_dup :
    ∀ (subs : List (String × FsTree)) (path : String), hasBothExtKids subs = true →
      scanKids path subs = .error .duplicateHandlerExtension
  | [], _ => by
    intro h
    exact absurd h (by simp [hasBothExtKids])
  | (n, t) :: rest, path => by
    intro h
    simp only [hasBothExtKids, Bool.or_eq_true] at h
    rcases h with hb | hkb
    · have hc := scanTree_dup t (path ++ "/" ++ n) hb
      rcases scanKids_ok_or_dup rest path with hk | ⟨cs, hk⟩ <;>
        simp only [scanKids] <;> rw [hc, hk]
    · have hk := scanKids_dup rest path hkb
      rcases scanTree_ok_or_dup t (path ++ "/" ++ n) with hc | ⟨c, hc⟩ <;>
        simp only [scanKids] <;> rw [hc, hk]

end

/-- Claim C9: when handler files with both recognized extensions exist for
the same method at the same node, scanning fails with
DuplicateHandlerExtension, the failure aborts the entire registration pass
and the hosting server receives no routes at all. -/
theorem c9_duplicate_extension (fs : FsTree) (pfx : String) (strict : Bool)
    (mwFiles : List String) (decls : String → List String)
    (h : hasBothExt fs = true) :
    registerRoutes pfx strict fs mwFiles decls = .error .duplicateHandlerExtension ∧
    serverRoutes (registerRoutes pfx strict fs mwFiles decls) = [] := by
  have hscan := scanTree_dup fs "src/routes" h
  constructor
  · unfold registerRoutes
    rw [hscan]
  · unfold serverRoutes registerRoutes
    rw [hscan]

/-- Witness for claim C9: a directory holding both GET.js and GET.ts makes
the whole registration fail with DuplicateHandlerExtension and commits
nothing. -/
theorem c9_duplicate_witness :
    registerRoutes "" false (.dir ["GET.js", "GET.ts"] []) [] (fun _ => []) =
      .error .duplicateHandlerExtension ∧
    serverRoutes (registerRoutes "" false (.dir ["GET.js", "GET.ts"] []) [] (fun _ => [])) =
      [] :=
  c9_duplicate_extension (.dir ["GET.js", "GET.ts"] []) "" false [] (fun _ => []) (by decide)

theorem resolveNames_error_shape (ds : List MiddlewareDescriptor) :
    ∀ (ns : List String) (e : RegError), resolveNames ds ns = .error e →
      ∃ m, e = .middlewareNotFound m (allMwNames ds) := by
  intro ns
  induction ns with
  | nil => intro e h; exact absurd h (by simp [resolveNames])
  | cons n rest ih =>
    intro e h
    unfold resolveNames at h
    cases hn : lookupNamed ds n with
    | none =>
      rw [hn] at h
      injection h with h
      exact ⟨n, h.symm⟩
    | some d =>
      rw [hn] at h
      cases hr : resolveNames ds rest with
      | error e2 =>
        rw [hr] at h
        injection h with h
        exact h ▸ ih e2 hr
      | ok l => rw [hr] at h; exact absurd h (by simp)

theorem resolveNames_error_of_unknown (ds : List MiddlewareDescriptor) :
    ∀ (ns : List String) (n : String), n ∈ ns → lookupNamed ds n = none →
      ∃ e, resolveNames ds ns = .error e := by
  intro ns
  induction ns with
  | nil => intro n hn; exact absurd hn (List.not_mem_nil n)
  | cons n0 rest ih =>
    intro n hn hlook
    unfold resolveNames
    cases hn0 : lookupNamed ds n0 with
    | none => exact ⟨_, rfl⟩
    | some d =>
      have hne : n ≠ n0 := by
        intro he
        rw [he, hn0] at hlook
        exact absurd hlook (by simp)
      have hmem : n ∈ rest := by
        rcases List.mem_cons.1 hn with he | hm
        · exact absurd he hne
        · exact hm
      obtain ⟨e, he⟩ := ih n hmem hlook
      rw [he]
      exact ⟨e, rfl⟩

theorem resolveChain_error_of_unknown (ds : List MiddlewareDescriptor)
    (declared : List String) (n : String) (hn : n ∈ declared)
    (hns : n ≠ skipSentinel) (hlook : lookupNamed ds n = none) :
    ∃ e, resolveChain ds declared = .error e := by
  unfold resolveChain
  by_cases hs : skipSentinel ∈ declared
  · rw [if_pos (by simpa using hs)]
    have hmem : n ∈ declared.filter (fun x => !decide (x = skipSentinel)) :=
      List.mem_filter.2 ⟨hn, by simp [hns]⟩
    obtain ⟨e, he⟩ := resolveNames_error_of_unknown ds _ n hmem hlook
    rw [he]
    exact ⟨e, rfl⟩
  · rw [if_neg (by simpa using hs)]
    obtain ⟨e, he⟩ := resolveNames_error_of_unknown ds declared n hn hlook
    rw [he]
    exact ⟨e, rfl⟩

theorem resolveChain_error_shape (ds : List MiddlewareDescriptor)
    (declared : List String) (e : RegError)
    (h : resolveChain ds declared = .error e) :
    ∃ m, e = .middlewareNotFound m (allMwNames ds) := by
  unfold resolveChain at h
  by_cases hs : skipSentinel ∈ declared
  · rw [if_pos (by simpa using hs)] at h
    cases hr : resolveNames ds (declared.filter (fun x => !decide (x = skipSentinel))) with
    | error e2 =>
      rw [hr] at h
      injection h with h
      exact h ▸ resolveNames_error_shape ds _ e2 hr
    | ok l => rw [hr] at h; exact absurd h (by simp)
  · rw [if_neg (by simpa using hs)] at h
    cases hr : resolveNames ds declared with
    | error e2 =>
      rw [hr] at h
      injection h with h
      exact h ▸ resolveNames_error_shape ds declared e2 hr
    | ok l => rw [hr] at h; exact absurd h (by simp)

theorem bindAll_ok_or_shape (ds : List MiddlewareDescriptor) :
    ∀ rs : List RouteRecord,
      (∃ m, bindAll ds rs = .error (.middlewareNotFound m (allMwNames ds))) ∨
        ∃ l, bindAll ds rs = .ok l := by
  intro rs
  induction rs with
  | nil => exact Or.inr ⟨[], rfl⟩
  | cons r rest ih =>
    unfold bindAll
    cases hc : resolveChain ds r.middlewares with
    | error e =>
      obtain ⟨m, hm⟩ := resolveChain_error_shape ds r.middlewares e hc
      rcases ih with ⟨m2, hb⟩ | ⟨l, hb⟩ <;> rw [hb]
      · exact Or.inl ⟨m, by rw [hm]⟩
      · exact Or.inl ⟨m, by rw [hm]⟩
    | ok c =>
      rcases ih with ⟨m2, hb⟩ | ⟨l, hb⟩ <;> rw [hb]
      · exact Or.inl ⟨m2, rfl⟩
      · exact Or.inr ⟨_, rfl⟩

theorem bindAll_error_of_route (ds : List MiddlewareDescriptor) :
    ∀ (rs : List RouteRecord) (r : RouteRecord), r ∈ rs →
      (∃ e0, resolveChain ds r.middlewares = .error e0) →
      ∃ m, bindAll ds rs = .error (.middlewareNotFound m (allMwNames ds)) := by
  intro rs
  induction rs with
  | nil => intro r hr; exact absurd hr (List.not_mem_nil r)
  | cons r0 rest ih =>
    intro r hr herr
    unfold bindAll
    cases hc : resolveChain ds r0.middlewares with
    | error e =>
      obtain ⟨m, hm⟩ := resolveChain_error_shape ds r0.middlewares e hc
      rcases bindAll_ok_or_shape ds rest with ⟨m2, hb⟩ | ⟨l, hb⟩ <;> rw [hb]
      · exact ⟨m, by rw [hm]⟩
      · exact ⟨m, by rw [hm]⟩
    | ok c =>
      have hmem : r ∈ rest := by
        rcases List.mem_cons.1 hr with rfl | hm
        · obtain ⟨e0, he0⟩ := herr
          rw [hc] at he0
          exact absurd he0 (by simp)
        · exact hm
      obtain ⟨m, hb⟩ := ih r hmem herr
      rw [hb]
      exact ⟨m, rfl⟩

/-- Counterexample to claim C8: the reserved skip sentinel is itself an
element of the declared middleware-name list that is not among the
discovered named middlewares, yet a route declaring only the sentinel
resolves successfully and registration commits the route instead of
failing with MiddlewareNotFoundError. -/
theorem c8_sentinel_counterexample :
    skipSentinel ∈ [skipSentinel] ∧
    lookupNamed dsEx skipSentinel = none ∧
    resolveChain dsEx [skipSentinel] = .ok [.handler] ∧
    registerRoutes "" false (.dir ["GET.js"] []) mwFilesEx (fun _ => [skipSentinel]) =
      .ok [⟨.get, "/", [.handler], "src/routes/GET.js"⟩] := by decide

/-- Claim C8 (amended): for every route whose declared middleware-name list
contains a name other than the reserved skip sentinel that is not among the
discovered named middlewares, chain resolution fails with
MiddlewareNotFoundError whose message enumerates all available middleware
names, and the whole registration aborts with that error, committing
nothing to the hosting server. -/
theorem c8_middleware_not_found :
    (∀ (ds : List MiddlewareDescriptor) (declared : List String) (n : String),
      n ∈ declared → n ≠ skipSentinel → lookupNamed ds n = none →
      ∃ m, resolveChain ds declared = .error (.middlewareNotFound m (allMwNames ds))) ∧
    (∀ (pfx : String) (fs : FsTree) (mwFiles : List String)
        (decls : String → List String) (tree : RouteTree) (r : RouteRecord) (n : String),
      scanTree "src/routes" fs = .ok tree →
      r ∈ commitNonStrict (resolveRecords pfx decls tree) →
      n ∈ r.middlewares → n ≠ skipSentinel →
      lookupNamed (discoverMw mwFiles) n = none →
      ∃ m, registerRoutes pfx false fs mwFiles decls =
          .error (.middlewareNotFound m (allMwNames (discoverMw mwFiles))) ∧
        serverRoutes (registerRoutes pfx false fs mwFiles decls) = []) := by
  constructor
  · intro ds declared n hn hns hlook
    obtain ⟨e, he⟩ := resolveChain_error_of_unknown ds declared n hn hns hlook
    obtain ⟨m, hm⟩ := resolveChain_error_shape ds declared e he
    exact ⟨m, by rw [he, hm]⟩
  · intro pfx fs mwFiles decls tree r n hscan hcommit hn hns hlook
    obtain ⟨e, he⟩ := resolveChain_error_of_unknown (discoverMw mwFiles) r.middlewares n hn hns hlook
    obtain ⟨m, hb⟩ := bindAll_error_of_route (discoverMw mwFiles)
      (commitNonStrict (resolveRecords pfx decls tree)) r hcommit ⟨e, he⟩
    have hreg : registerRoutes pfx false fs mwFiles decls =
        .error (.middlewareNotFound m (allMwNames (discoverMw mwFiles))) := by
      unfold registerRoutes
      rw [hscan]
      simpa using hb
    refine ⟨m, hreg, ?_⟩
    unfold serverRoutes
    rw [hreg]

/-- Witness for the amended claim C8: a route declaring the unknown name
nonExistent on the example middleware directory fails with
MiddlewareNotFoundError listing all available names. -/
theorem c8_unknown_witness :
    ∃ m, resolveChain dsEx ["nonExistent"] =
      .error (.middlewareNotFound m (allMwNames dsEx)) :=
  c8_middleware_not_found.1 dsEx ["nonExistent"] "nonExistent" (by decide) (by decide)
    (by decide)

theorem conflictsOf_mem (c : Conflict) :
    ∀ l : List RouteRecord, c ∈ conflictsOf l → c.kept ∈ l ∧ c.dropped ∈ l := by
  intro l
  induction l with
  | nil => intro h; exact absurd h (List.not_mem_nil c)
  | cons r rs ih =>
    intro h
    unfold conflictsOf at h
    rcases List.mem_append.1 h with h | h
    · rcases List.mem_map.1 h with ⟨d, hd, rfl⟩
      exact ⟨List.mem_cons_self r rs, List.mem_cons_of_mem r (List.mem_of_mem_filter hd)⟩
    · obtain ⟨h1, h2⟩ := ih h
      exact ⟨List.mem_cons_of_mem r h1, List.mem_cons_of_mem r h2⟩

/-- Claim C3: in strict mode, a method-matching pair of records with
identical pattern shape but different parameter names aborts the entire
registration with a ConflictError naming both source files, and the hosting
server receives no routes at all. -/
theorem c3_strict_conflict (pfx : String) (fs : FsTree) (mwFiles : List String)
    (decls : String → List String) (tree : RouteTree) (c : Conflict) (rest : List Conflict)
    (hscan : scanTree "src/routes" fs = .ok tree)
    (hconf : conflictsOf (resolveRecords pfx decls tree) = c :: rest) :
    registerRoutes pfx true fs mwFiles decls =
      .error (.conflictError c.kept.sourceFile c.dropped.sourceFile) ∧
    serverRoutes (registerRoutes pfx true fs mwFiles decls) = [] ∧
    c.kept ∈ resolveRecords pfx decls tree ∧ c.dropped ∈ resolveRecords pfx decls tree := by
  have hreg : registerRoutes pfx true fs mwFiles decls =
      .error (.conflictError c.kept.sourceFile c.dropped.sourceFile) := by
    unfold registerRoutes
    rw [hscan]
    dsimp only
    rw [hconf, if_pos rfl]
  refine ⟨hreg, ?_, ?_⟩
  · unfold serverRoutes
    rw [hreg]
  · exact conflictsOf_mem c _ (hconf ▸ List.mem_cons_self c rest)

/-- Witness for claim C3: the documented [id] versus [slug] example under
strict mode aborts with a ConflictError naming both files and commits
nothing. -/
theorem c3_strict_witness :
    registerRoutes "" true fsConflict [] (fun _ => []) =
      .error (.conflictError "src/routes/products/[id]/GET.js"
        "src/routes/products/[slug]/GET.js") ∧
    serverRoutes (registerRoutes "" true fsConflict [] (fun _ => [])) = [] := by
  have h := c3_strict_conflict "" fsConflict [] (fun _ => []) treeConflict
    ⟨recId, recSlug⟩ [] rfl (by decide)
  exact ⟨h.1, h.2.1⟩

theorem conflict_mk_injective (r1 : RouteRecord) :
    Function.Injective (fun d => (⟨r1, d⟩ : Conflict)) := by
  intro a b h
  exact congrArg Conflict.dropped h

theorem conflictsOf_count (r1 r2 : RouteRecord) :
    ∀ (l1 l2 l3 : List RouteRecord),
      (l1 ++ (r1 :: (l2 ++ (r2 :: l3)))).Nodup → collides r1 r2 = true →
      (conflictsOf (l1 ++ (r1 :: (l2 ++ (r2 :: l3))))).count ⟨r1, r2⟩ = 1 := by
  intro l1
  induction l1 with
  | nil =>
    intro l2 l3 hnd hc
    simp only [List.nil_append] at hnd ⊢
    simp only [conflictsOf]
    rw [List.count_append]
    have hcons := List.nodup_cons.1 hnd
    have hr2mem : r2 ∈ l2 ++ (r2 :: l3) :=
      List.mem_append.2 (Or.inr (List.mem_cons_self _ _))
    have hcount_map :
        (((l2 ++ (r2 :: l3)).filter (collides r1)).map
            (fun d => (⟨r1, d⟩ : Conflict))).count ⟨r1, r2⟩ = 1 := by
      have hm := List.count_map_of_injective ((l2 ++ (r2 :: l3)).filter (collides r1))
        (fun d => (⟨r1, d⟩ : Conflict)) (conflict_mk_injective r1) r2
      rw [hm, List.count_filter hc, List.count_eq_one_of_mem hcons.2 hr2mem]
    have hcount_rest : (conflictsOf (l2 ++ (r2 :: l3))).count ⟨r1, r2⟩ = 0 := by
      rw [List.count_eq_zero]
      intro hmem
      exact hcons.1 (conflictsOf_mem _ _ hmem).1
    rw [hcount_map, hcount_rest]
  | cons r0 rest ih =>
    intro l2 l3 hnd hc
    simp only [List.cons_append] at hnd ⊢
    simp only [conflictsOf]
    rw [List.count_append]
    have hcons := List.nodup_cons.1 hnd
    have hr1mem : r1 ∈ rest ++ (r1 :: (l2 ++ (r2 :: l3))) := by simp
    have hr0ne : r0 ≠ r1 := fun he => hcons.1 (he ▸ hr1mem)
    have hmap0 :
        (((rest ++ (r1 :: (l2 ++ (r2 :: l3)))).filter (collides r0)).map
            (fun d => (⟨r0, d⟩ : Conflict))).count ⟨r1, r2⟩ = 0 := by
      rw [List.count_eq_zero]
      intro hmem
      rcases List.mem_map.1 hmem with ⟨d, _, he⟩
      exact hr0ne (congrArg Conflict.kept he)
    rw [hmap0, ih l2 l3 hcons.2 hc]

theorem any_shape_false (seen : List RouteRecord) (r : RouteRecord)
    (h : ∀ x ∈ seen, sameShape x r = false) :
    seen.any (fun s => sameShape s r) = false := by
  cases hany : seen.any (fun s => sameShape s r) with
  | false => rfl
  | true =>
    rcases List.any_eq_true.1 hany with ⟨x, hx, hp⟩
    rw [h x hx] at hp
    exact absurd hp (by simp)

theorem commitGo_keep (r1 : RouteRecord) :
    ∀ (l1 seen l2 : List RouteRecord),
      (∀ x ∈ seen, sameShape x r1 = false) →
      (∀ x ∈ l1, sameShape x r1 = false) →
      r1 ∈ commitGo seen (l1 ++ r1 :: l2) := by
  intro l1
  induction l1 with
  | nil =>
    intro seen l2 hseen _
    simp only [List.nil_append]
    simp only [commitGo]
    rw [if_neg (by simp [any_shape_false seen r1 hseen])]
    exact List.mem_cons_self _ _
  | cons x rest ih =>
    intro seen l2 hseen hl1
    simp only [List.cons_append]
    simp only [commitGo]
    by_cases hany : seen.any (fun s => sameShape s x) = true
    · rw [if_pos hany]
      exact ih seen l2 hseen (fun y hy => hl1 y (List.mem_cons_of_mem x hy))
    · rw [if_neg hany]
      apply List.mem_cons_of_mem
      apply ih (x :: seen) l2 ?_ (fun y hy => hl1 y (List.mem_cons_of_mem x hy))
      intro y hy
      rcases List.mem_cons.1 hy with rfl | hy2
      · exact hl1 y (List.mem_cons_self y rest)
      · exact hseen y hy2

theorem commitGo_not_mem_of_seen (r : RouteRecord) :
    ∀ (l seen : List RouteRecord) (s : RouteRecord), s ∈ seen → sameShape s r = true →
      r ∉ commitGo seen l := by
  intro l
  induction l with
  | nil => intro seen s _ _; simp [commitGo]
  | cons x rest ih =>
    intro seen s hs hshape
    simp only [commitGo]
    by_cases hany : seen.any (fun q => sameShape q x) = true
    · rw [if_pos hany]
      exact ih seen s hs hshape
    · rw [if_neg hany]
      intro hmem
      rcases List.mem_cons.1 hmem with rfl | hmem2
      · exact hany (List.any_eq_true.2 ⟨s, hs, hshape⟩)
      · exact ih (x :: seen) s (List.mem_cons_of_mem x hs) hshape hmem2

theorem commitGo_drop (r1 r2 : RouteRecord) (hshape : sameShape r1 r2 = true)
    (hne : r2 ≠ r1) :
    ∀ (l1 seen l2 l3 : List RouteRecord),
      (∀ x ∈ seen, sameShape x r1 = false) →
      (∀ x ∈ l1, sameShape x r1 = false) →
      r2 ∉ l1 →
      r2 ∉ commitGo seen (l1 ++ (r1 :: (l2 ++ (r2 :: l3)))) := by
  intro l1
  induction l1 with
  | nil =>
    intro seen l2 l3 hseen _ _
    simp only [List.nil_append]
    simp only [commitGo]
    rw [if_neg (by simp [any_shape_false seen r1 hseen])]
    intro hmem
    rcases List.mem_cons.1 hmem with he | hmem2
    · exact hne he
    · exact commitGo_not_mem_of_seen r2 _ (r1 :: seen) r1
        (List.mem_cons_self _ _) hshape hmem2
  | cons x rest ih =>
    intro seen l2 l3 hseen hl1 hr2l1
    simp only [List.cons_append]
    simp only [commitGo]
    by_cases hany : seen.any (fun s => sameShape s x) = true
    · rw [if_pos hany]
      exact ih seen l2 l3 hseen (fun y hy => hl1 y (List.mem_cons_of_mem x hy))
        (fun hm => hr2l1 (List.mem_cons_of_mem x hm))
    · rw [if_neg hany]
      intro hmem
      rcases List.mem_cons.1 hmem with he | hmem2
      · exact hr2l1 (he ▸ List.mem_cons_self x rest)
      · refine ih (x :: seen) l2 l3 ?_ (fun y hy => hl1 y (List.mem_cons_of_mem x hy))
          (fun hm => hr2l1 (List.mem_cons_of_mem x hm)) hmem2
        intro y hy
        rcases List.mem_cons.1 hy with rfl | hy2
        · exact hl1 y (List.mem_cons_self y rest)
        · exact hseen y hy2

/-- Claim C2: for a method-matching pair of records with identical pattern
shape but different parameter names, the earlier of which opens its group,
exactly one Conflict is reported, a warning names both source files, and
under the default non-strict policy the earlier record is kept in the
committed table while the later one is dropped. -/
theorem c2_nonstrict_conflict (l1 l2 l3 : List RouteRecord) (r1 r2 : RouteRecord)
    (hnd : (l1 ++ (r1 :: (l2 ++ (r2 :: l3)))).Nodup)
    (hc : collides r1 r2 = true)
    (hfirst : ∀ x ∈ l1, sameShape x r1 = false) :
    (conflictsOf (l1 ++ (r1 :: (l2 ++ (r2 :: l3))))).count ⟨r1, r2⟩ = 1 ∧
    (r1.sourceFile, r2.sourceFile) ∈
      nonStrictWarnings (l1 ++ (r1 :: (l2 ++ (r2 :: l3)))) ∧
    r1 ∈ commitNonStrict (l1 ++ (r1 :: (l2 ++ (r2 :: l3)))) ∧
    r2 ∉ commitNonStrict (l1 ++ (r1 :: (l2 ++ (r2 :: l3)))) := by
  have hcount := conflictsOf_count r1 r2 l1 l2 l3 hnd hc
  have hcparts : sameShape r1 r2 = true ∧ r1.urlPattern ≠ r2.urlPattern := by
    simpa [collides] using hc
  have hshape : sameShape r1 r2 = true := hcparts.1
  have hne21 : r2 ≠ r1 :=
    fun he => hcparts.2 (congrArg RouteRecord.urlPattern he.symm)
  refine ⟨hcount, ?_, ?_, ?_⟩
  · have hmem : (⟨r1, r2⟩ : Conflict) ∈ conflictsOf (l1 ++ (r1 :: (l2 ++ (r2 :: l3)))) :=
      List.count_pos_iff.1 (by rw [hcount]; exact Nat.one_pos)
    exact List.mem_map_of_mem _ hmem
  · show r1 ∈ commitGo [] (l1 ++ (r1 :: (l2 ++ (r2 :: l3))))
    exact commitGo_keep r1 l1 [] (l2 ++ (r2 :: l3)) (by simp) hfirst
  · have hr2not : r2 ∉ l1 := by
      have hd := (List.nodup_append.1 hnd).2.2
      intro hm
      exact hd hm (by simp)
    show r2 ∉ commitGo [] (l1 ++ (r1 :: (l2 ++ (r2 :: l3))))
    exact commitGo_drop r1 r2 hshape hne21 l1 [] l2 l3 (by simp) hfirst hr2not

/-- Witness for claim C2: the documented [id] versus [slug] pair yields
exactly one conflict, a warning naming both files, the earlier record kept
and the later one dropped. -/
theorem c2_nonstrict_witness :
    (conflictsOf [recId, recSlug]).count ⟨recId, recSlug⟩ = 1 ∧
    (recId.sourceFile, recSlug.sourceFile) ∈ nonStrictWarnings [recId, recSlug] ∧
    recId ∈ commitNonStrict [recId, recSlug] ∧
    recSlug ∉ commitNonStrict [recId, recSlug] :=
  c2_nonstrict_conflict [] [] [] recId recSlug (by decide) (by decide)
    (fun x hx => absurd hx (List.not_mem_nil x))

theorem mem_insertLe {α : Type} (le : α → α → Bool) (x a : α) :
    ∀ l : List α, a ∈ insertLe le x l ↔ a = x ∨ a ∈ l := by
  intro l
  induction l with
  | nil => simp [insertLe]
  | cons y ys ih =>
    simp only [insertLe]
    by_cases h : le x y = true
    · rw [if_pos h]
      simp [List.mem_cons]
    · rw [if_neg h]
      simp only [List.mem_cons, ih]
      tauto

theorem mem_sortLe {α : Type} (le : α → α → Bool) (a : α) :
    ∀ l : List α, a ∈ sortLe le l ↔ a ∈ l := by
  intro l
  induction l with
  | nil => simp [sortLe]
  | cons x xs ih => simp [sortLe, mem_insertLe, ih]

theorem mem_sortKidsList (n : String) (t : RouteTree) :
    ∀ cs : List (String × RouteTree), (n, t) ∈ cs → (n, sortTree t) ∈ sortKidsList cs := by
  intro cs
  induction cs with
  | nil => intro h; exact absurd h (List.not_mem_nil _)
  | cons c rest ih =>
    obtain ⟨cn, ct⟩ := c
    intro h
    rcases List.mem_cons.1 h with he | hm
    · obtain ⟨h1, h2⟩ := Prod.mk.injEq .. ▸ he
      subst h1
      subst h2
      simp only [sortKidsList]
      exact List.mem_cons_self _ _
    · simp only [sortKidsList]
      exact List.mem_cons_of_mem _ (ih hm)

theorem resolveKids_append (decls : String → List String) (acc : String) :
    ∀ u v : List (String × RouteTree),
      resolveKids decls acc (u ++ v) = resolveKids decls acc u ++ resolveKids decls acc v := by
  intro u v
  induction u with
  | nil => simp [resolveKids]
  | cons c rest ih =>
    obtain ⟨cn, ct⟩ := c
    simp only [List.cons_append, resolveKids, List.append_eq, ih, List.append_assoc]

theorem rootHandlers_sortTree (t : RouteTree) : (sortTree t).rootHandlers = t.rootHandlers := by
  cases t with
  | node hs cs => rfl

theorem mkRecord_mem_resolveNode (decls : String → List String) (acc : String)
    (t : RouteTree) (m : Method) (f : String) (h : (m, f) ∈ t.rootHandlers) :
    mkRecord decls acc (m, f) ∈ resolveNode decls acc t := by
  cases t with
  | node hs cs =>
    simp only [RouteTree.rootHandlers] at h
    simp only [resolveNode]
    exact List.mem_append_left _ (List.mem_map_of_mem _ h)

theorem sublist_pair_shape {α : Type} (x y : α) (A B X C D Y E : List α)
    (hx : x ∈ X) (hy : y ∈ Y) :
    List.Sublist [x, y] (A ++ (B ++ (X ++ (C ++ (D ++ (Y ++ E)))))) := by
  have h1 : List.Sublist [x] X := List.singleton_sublist.2 hx
  have h2 : List.Sublist [y] (Y ++ E) :=
    (List.singleton_sublist.2 hy).trans (List.sublist_append_left Y E)
  have h3 : List.Sublist [y] (D ++ (Y ++ E)) := h2.trans (List.sublist_append_right D _)
  have h4 : List.Sublist [y] (C ++ (D ++ (Y ++ E))) := h3.trans (List.sublist_append_right C _)
  have h5 : List.Sublist ([x] ++ [y]) (X ++ (C ++ (D ++ (Y ++ E)))) :=
    List.Sublist.append h1 h4
  have h6 := h5.trans (List.sublist_append_right B _)
  exact h6.trans (List.sublist_append_right A _)

/-- Claim C5: at every directory level where a static child and a dynamic
bracket child both provide a handler for the same method, the static
child route precedes the sibling dynamic child route in the resolved
(and hence registered) sequence; consequently, in the documented example
with users/GET.js, users/[id]/GET.js and users/profile/GET.js, a request
to /users/profile dispatches to the static profile handler and never to
the [id] handler. -/
theorem c5_static_before_dynamic :
    (∀ (decls : String → List String) (acc : String) (hs : List (Method × String))
        (cs : List (String × RouteTree)) (ns nd : String) (s d : RouteTree)
        (m : Method) (fs fd : String),
      (ns, s) ∈ cs → (nd, d) ∈ cs →
      isDynamicSeg ns = false → isDynamicSeg nd = true →
      (m, fs) ∈ s.rootHandlers → (m, fd) ∈ d.rootHandlers →
      ∃ rs rd : RouteRecord,
        rs.method = m ∧ rs.sourceFile = fs ∧ rd.method = m ∧ rd.sourceFile = fd ∧
        List.Sublist [rs, rd] (resolveNode decls acc (sortTree (.node hs cs)))) ∧
    (routeRequest (serverRoutes (registerRoutes "" false fsEx [] (fun _ => [])))
        .get "/users/profile").map BoundRoute.sourceFile =
      some "src/routes/users/profile/GET.js" ∧
    (serverRoutes (registerRoutes "" false fsEx [] (fun _ => []))).map
      BoundRoute.urlPattern = ["/users", "/users/profile", "/users/:id"] := by
  refine ⟨?_, by decide, by decide⟩
  intro decls acc hs cs ns nd s d m fs fd hsmem hdmem hstat hdyn hhs hhd
  have hs1 : (ns, sortTree s) ∈ sortKidsList cs := mem_sortKidsList ns s cs hsmem
  have hd1 : (nd, sortTree d) ∈ sortKidsList cs := mem_sortKidsList nd d cs hdmem
  have hs2 : (ns, sortTree s) ∈ (sortKidsList cs).filter (fun c => !isDynamicSeg c.1) :=
    List.mem_filter.2 ⟨hs1, by simp [hstat]⟩
  have hd2 : (nd, sortTree d) ∈ (sortKidsList cs).filter (fun c => isDynamicSeg c.1) :=
    List.mem_filter.2 ⟨hd1, by simp [hdyn]⟩
  have hs3 := (mem_sortLe childLe _ _).2 hs2
  have hd3 := (mem_sortLe childLe _ _).2 hd2
  obtain ⟨u, v, hu⟩ := List.append_of_mem hs3
  obtain ⟨u2, v2, hu2⟩ := List.append_of_mem hd3
  refine ⟨mkRecord decls (acc ++ segPiece ns) (m, fs),
    mkRecord decls (acc ++ segPiece nd) (m, fd), rfl, rfl, rfl, rfl, ?_⟩
  have hsrec : mkRecord decls (acc ++ segPiece ns) (m, fs) ∈
      resolveNode decls (acc ++ segPiece ns) (sortTree s) :=
    mkRecord_mem_resolveNode decls _ (sortTree s) m fs
      (by rw [rootHandlers_sortTree]; exact hhs)
  have hdrec : mkRecord decls (acc ++ segPiece nd) (m, fd) ∈
      resolveNode decls (acc ++ segPiece nd) (sortTree d) :=
    mkRecord_mem_resolveNode decls _ (sortTree d) m fd
      (by rw [rootHandlers_sortTree]; exact hhd)
  have hview : resolveNode decls acc (sortTree (.node hs cs)) =
      hs.map (mkRecord decls acc) ++
        (resolveKids decls acc
            (sortLe childLe ((sortKidsList cs).filter (fun c => !isDynamicSeg c.1))) ++
          resolveKids decls acc
            (sortLe childLe ((sortKidsList cs).filter (fun c => isDynamicSeg c.1)))) := by
    simp only [sortTree, resolveNode, orderChildren, resolveKids_append]
  rw [hview, hu, hu2, resolveKids_append, resolveKids_append]
  simp only [resolveKids, List.append_assoc]
  exact sublist_pair_shape _ _ _ _ _ _ _ _ _ hsrec hdrec

/-- Witness for claim C5: at the users level of the documented example the
static profile route record precedes the dynamic [id] route record in the
resolved sequence. -/
theorem c5_order_witness :
    ∃ rs rd : RouteRecord,
      rs.method = .get ∧ rs.sourceFile = "src/routes/users/profile/GET.js" ∧
      rd.method = .get ∧ rd.sourceFile = "src/routes/users/[id]/GET.js" ∧
      List.Sublist [rs, rd] (resolveNode (fun _ => []) "/users"
        (sortTree (.node [] [("[id]", idNodeEx), ("profile", profileNodeEx)]))) :=
  c5_static_before_dynamic.1 (fun _ => []) "/users" []
    [("[id]", idNodeEx), ("profile", profileNodeEx)]
    "profile" "[id]" profileNodeEx idNodeEx .get
    "src/routes/users/profile/GET.js" "src/routes/users/[id]/GET.js"
    (List.mem_cons_of_mem _ (List.mem_cons_self _ _)) (List.mem_cons_self _ _)
    (by decide) (by decide) (List.mem_cons_self _ _) (List.mem_cons_self _ _)

end Thiz

